import Mathlib

/-!
# Verification of the image-signal-studio metadata & export pipeline

Shallow embedding, in Lean 4, of the deterministic metadata and multi-surface
export pipeline of the repository (slug/filename synthesis, per-surface
metadata generation, image transcoding dimensions, export orchestration),
together with proofs of the spec's claims about it.

Strings are modelled as lists of Unicode code points (`JStr`), mirroring
JavaScript strings (all text handled by the program is BMP, where code
points and UTF-16 units coincide).
-/

set_option maxHeartbeats 1000000
set_option maxRecDepth 4096

/-- JavaScript string, modelled as its list of code points. -/
abbrev JStr := List Char

/-- Shorthand turning a Lean string literal into a `JStr`. -/
def S (s : String) : JStr := s.data

namespace SlugUtils

/-- Model of `String.prototype.toLowerCase`, restricted to the Basic Latin and
Latin-1 ranges: ASCII `A-Z` and the Latin-1 uppercase letters `À`–`Þ`
(except `×`) map down by 32, as in Unicode simple case folding; everything
else is unchanged. -/
def jsToLower (c : Char) : Char :=
  if 65 ≤ c.toNat ∧ c.toNat ≤ 90 then Char.ofNat (c.toNat + 32)
  else if 0xC0 ≤ c.toNat ∧ c.toNat ≤ 0xDE ∧ c.toNat ≠ 0xD7 then Char.ofNat (c.toNat + 32)
  else c

/-- Modelled from the spec: `String.prototype.normalize('NFD')` (an external
runtime primitive, not repository code). Canonical decomposition restricted to
the lowercase Latin-1 precomposed letters the pipeline can see after
lowercasing; identity on ASCII (as in full NFD) and on anything outside the
table. -/
def nfdChar (c : Char) : JStr :=
  match c with
  | 'à' => ['a', '̀'] | 'á' => ['a', '́'] | 'â' => ['a', '̂']
  | 'ã' => ['a', '̃'] | 'ä' => ['a', '̈'] | 'å' => ['a', '̊']
  | 'ç' => ['c', '̧']
  | 'è' => ['e', '̀'] | 'é' => ['e', '́'] | 'ê' => ['e', '̂']
  | 'ë' => ['e', '̈']
  | 'ì' => ['i', '̀'] | 'í' => ['i', '́'] | 'î' => ['i', '̂']
  | 'ï' => ['i', '̈']
  | 'ñ' => ['n', '̃']
  | 'ò' => ['o', '̀'] | 'ó' => ['o', '́'] | 'ô' => ['o', '̂']
  | 'õ' => ['o', '̃'] | 'ö' => ['o', '̈']
  | 'ù' => ['u', '̀'] | 'ú' => ['u', '́'] | 'û' => ['u', '̂']
  | 'ü' => ['u', '̈']
  | 'ý' => ['y', '́'] | 'ÿ' => ['y', '̈']
  | c => [c]

/-- NFD normalization of a whole string. -/
def nfd : JStr → JStr
  | [] => []
  | c :: r => nfdChar c ++ nfd r

/-- The combining marks removed by `replace(/[̀-ͯ]/g, '')`. -/
def isCombiningMark (c : Char) : Bool := 0x300 ≤ c.toNat && c.toNat ≤ 0x36F

/-- The characters matched by the JavaScript regex class `\s`
(whitespace), restricted to its common members. -/
def isJsSpace (c : Char) : Bool :=
  c = ' ' || c = '\t' || c = '\n' || c = '\r' || c = '\x0b' || c = '\x0c' || c = ' '

/-- Characters kept by `replace(/[^a-z0-9-_]/g, '')`: the code-point ranges
`a`–`z` (97–122) and `0`–`9` (48–57), plus `-` and `_`. -/
def isSlugSafe (c : Char) : Bool :=
  (97 ≤ c.toNat && c.toNat ≤ 122) || (48 ≤ c.toNat && c.toNat ≤ 57) || c = '-' || c = '_'

/-- `replace(/\s+/g, '-')`: each maximal run of whitespace becomes a single
hyphen. The flag records whether we are inside a whitespace run. -/
def spacesGo : JStr → Bool → JStr
  | [], _ => []
  | c :: r, inRun =>
    if isJsSpace c then
      if inRun then spacesGo r true else '-' :: spacesGo r true
    else c :: spacesGo r false

def spacesToHyphens (l : JStr) : JStr := spacesGo l false

/-- The hyphen-collapsing replacement (regex `-+`, global): each run of
hyphens becomes a single hyphen. The flag records whether the previous
character was a hyphen. -/
def collapseGo : JStr → Bool → JStr
  | [], _ => []
  | c :: r, prevHyphen =>
    if c = '-' then
      if prevHyphen then collapseGo r true else '-' :: collapseGo r true
    else c :: collapseGo r false

def collapseHyphens (l : JStr) : JStr := collapseGo l false

/-- Drop one leading hyphen, if present. -/
def dropLeadHyphen : JStr → JStr
  | [] => []
  | c :: r => if c = '-' then r else c :: r

/-- `replace(/^-|-$/g, '')`: remove a single leading hyphen and a single
trailing hyphen (`^` and `$` only match at the two ends of the string).
The trailing removal is expressed by reversing, dropping a leading hyphen,
and reversing back. -/
def trimHyphens (l : JStr) : JStr :=
  ((dropLeadHyphen l).reverse |> dropLeadHyphen).reverse

/-- `slugify` from `src/lib/slug-utils.ts` (also used by the metadata
engine): lowercase, NFD-decompose, strip combining marks, strip commas,
whitespace runs to hyphens, strip unsafe characters, collapse hyphen runs,
trim one hyphen from each end. -/
def slugify (l : JStr) : JStr :=
  trimHyphens
    (collapseHyphens
      (List.filter isSlugSafe
        (spacesToHyphens
          (List.filter (fun c => c ≠ ',')
            (List.filter (fun c => !isCombiningMark c)
              (nfd (l.map jsToLower)))))))

end SlugUtils

namespace SlugUtils

/-- No two adjacent hyphens. -/
def NoHH (l : JStr) : Prop := l.Chain' (fun a b => ¬(a = '-' ∧ b = '-'))

/-- A fully normalized token: only slug-safe characters, no hyphen runs,
no hyphen at either end. -/
def Normalized (l : JStr) : Prop :=
  (∀ c ∈ l, isSlugSafe c = true) ∧ NoHH l ∧
    l.head? ≠ some '-' ∧ l.getLast? ≠ some '-'

theorem jsToLower_safe {c : Char} (h : isSlugSafe c = true) : jsToLower c = c := by
  simp only [isSlugSafe, Bool.or_eq_true, Bool.and_eq_true, decide_eq_true_eq] at h
  unfold jsToLower
  rcases h with (((⟨h1, h2⟩ | ⟨h1, h2⟩) | h) | h)
  · rw [if_neg (by omega), if_neg (by omega)]
  · rw [if_neg (by omega), if_neg (by omega)]
  · subst h; rfl
  · subst h; rfl

theorem nfdChar_safe {c : Char} (h : isSlugSafe c = true) : nfdChar c = [c] := by
  unfold nfdChar
  split
  all_goals first
    | rfl
    | exact absurd h (by decide)

end SlugUtils

namespace SlugUtils

theorem safe_not_mark {c : Char} (h : isSlugSafe c = true) : isCombiningMark c = false := by
  simp only [isSlugSafe, Bool.or_eq_true, Bool.and_eq_true, decide_eq_true_eq] at h
  simp only [isCombiningMark, Bool.and_eq_false_iff, decide_eq_false_iff_not]
  rcases h with (((⟨h1, h2⟩ | ⟨h1, h2⟩) | h) | h)
  · left; omega
  · left; omega
  · subst h; left; decide
  · subst h; left; decide

theorem safe_not_comma {c : Char} (h : isSlugSafe c = true) : c ≠ ',' := by
  intro hc; subst hc; exact absurd h (by decide)

theorem safe_not_space {c : Char} (h : isSlugSafe c = true) : isJsSpace c = false := by
  simp only [isJsSpace, Bool.or_eq_false_iff, decide_eq_false_iff_not]
  refine ⟨⟨⟨⟨⟨⟨?_, ?_⟩, ?_⟩, ?_⟩, ?_⟩, ?_⟩, ?_⟩
  all_goals intro hc; subst hc; exact absurd h (by decide)

theorem map_id_of_fix {l : JStr} {f : Char → Char} (h : ∀ c ∈ l, f c = c) :
    l.map f = l := by
  induction l with
  | nil => rfl
  | cons c r ih =>
    simp only [List.map_cons, List.cons.injEq]
    exact ⟨h c (by simp), ih fun d hd => h d (by simp [hd])⟩

theorem nfd_id_of_fix {l : JStr} (h : ∀ c ∈ l, nfdChar c = [c]) : nfd l = l := by
  induction l with
  | nil => rfl
  | cons c r ih =>
    show nfdChar c ++ nfd r = c :: r
    rw [h c (by simp), ih fun d hd => h d (by simp [hd])]
    rfl

theorem spacesGo_id {l : JStr} (h : ∀ c ∈ l, isJsSpace c = false) :
    ∀ b, spacesGo l b = l := by
  induction l with
  | nil => intro b; rfl
  | cons c r ih =>
    intro b
    show (if isJsSpace c then _ else c :: spacesGo r false) = c :: r
    rw [if_neg (by simp [h c (by simp)]), ih fun d hd => h d (by simp [hd])]

end SlugUtils

namespace SlugUtils

theorem collapseGo_pred {p : Char → Bool} (hp : p '-' = true) :
    ∀ (l : JStr) (b : Bool), (∀ c ∈ l, p c = true) → ∀ c ∈ collapseGo l b, p c = true := by
  intro l
  induction l with
  | nil => intro b _ c hc; simp [collapseGo] at hc
  | cons a r ih =>
    intro b h c hc
    by_cases ha : a = '-'
    · simp only [collapseGo, if_pos ha] at hc
      rcases b with _ | _
      · simp only [Bool.false_eq_true, if_false] at hc
        rcases List.mem_cons.mp hc with h1 | h1
        · subst h1; exact hp
        · exact ih true (fun d hd => h d (List.mem_cons_of_mem _ hd)) c h1
      · exact ih true (fun d hd => h d (List.mem_cons_of_mem _ hd)) c (by simpa using hc)
    · simp only [collapseGo, if_neg ha] at hc
      rcases List.mem_cons.mp hc with h1 | h1
      · subst h1; exact h c (by simp)
      · exact ih false (fun d hd => h d (List.mem_cons_of_mem _ hd)) c h1

theorem collapseGo_spec (l : JStr) :
    NoHH (collapseGo l false) ∧ NoHH (collapseGo l true) ∧
      (collapseGo l true).head? ≠ some '-' := by
  induction l with
  | nil => exact ⟨List.chain'_nil, List.chain'_nil, by simp [collapseGo]⟩
  | cons c r ih =>
    obtain ⟨ihf, iht, ihh⟩ := ih
    by_cases hc : c = '-'
    · subst hc
      refine ⟨?_, ?_, ?_⟩
      · show NoHH ('-' :: collapseGo r true)
        exact List.chain'_cons'.mpr
          ⟨fun y hy hcon => ihh (by rw [hy]; exact congrArg some hcon.2.symm ▸ rfl), iht⟩
      · simpa [collapseGo] using iht
      · simpa [collapseGo] using ihh
    · refine ⟨?_, ?_, ?_⟩
      · simp only [NoHH, collapseGo, if_neg hc]
        exact List.chain'_cons'.mpr ⟨fun y _ hcon => hc hcon.1, ihf⟩
      · simp only [NoHH, collapseGo, if_neg hc]
        exact List.chain'_cons'.mpr ⟨fun y _ hcon => hc hcon.1, ihf⟩
      · simp only [collapseGo, if_neg hc, List.head?_cons, ne_eq, Option.some.injEq]
        exact hc

theorem collapseGo_id {l : JStr} (h : NoHH l) :
    collapseGo l false = l ∧ (l.head? ≠ some '-' → collapseGo l true = l) := by
  induction l with
  | nil => exact ⟨rfl, fun _ => rfl⟩
  | cons c r ih =>
    obtain ⟨hR, hr⟩ := List.chain'_cons'.mp h
    obtain ⟨ihf, iht⟩ := ih hr
    by_cases hc : c = '-'
    · subst hc
      have hrh : r.head? ≠ some '-' := by
        intro hh
        exact (hR '-' hh) ⟨rfl, rfl⟩
      constructor
      · show '-' :: collapseGo r true = '-' :: r
        rw [iht hrh]
      · intro hh
        exact (hh rfl).elim
    · constructor
      · simp only [collapseGo, if_neg hc, List.cons.injEq]
        exact ⟨trivial, ihf⟩
      · intro _
        simp only [collapseGo, if_neg hc, List.cons.injEq]
        exact ⟨trivial, ihf⟩

end SlugUtils

namespace SlugUtils

theorem dropLead_subset {l : JStr} : ∀ c ∈ dropLeadHyphen l, c ∈ l := by
  cases l with
  | nil => intro c hc; exact hc
  | cons a r =>
    intro c hc
    by_cases ha : a = '-'
    · simp only [dropLeadHyphen, if_pos ha] at hc
      exact List.mem_cons_of_mem _ hc
    · simpa only [dropLeadHyphen, if_neg ha] using hc

theorem dropLead_chain {l : JStr} (h : NoHH l) : NoHH (dropLeadHyphen l) := by
  cases l with
  | nil => exact h
  | cons a r =>
    by_cases ha : a = '-'
    · simp only [dropLeadHyphen, if_pos ha]
      exact (List.chain'_cons'.mp h).2
    · simpa only [dropLeadHyphen, if_neg ha] using h

theorem dropLead_head {l : JStr} (h : NoHH l) : (dropLeadHyphen l).head? ≠ some '-' := by
  cases l with
  | nil => simp [dropLeadHyphen]
  | cons a r =>
    by_cases ha : a = '-'
    · simp only [dropLeadHyphen, if_pos ha]
      obtain ⟨hR, _⟩ := List.chain'_cons'.mp h
      intro hh
      exact hR '-' hh ⟨ha, rfl⟩
    · simp only [dropLeadHyphen, if_neg ha, List.head?_cons, ne_eq, Option.some.injEq]
      exact ha

theorem dropLead_getLast {l : JStr} (h : l.getLast? ≠ some '-') :
    (dropLeadHyphen l).getLast? ≠ some '-' := by
  cases l with
  | nil => simpa [dropLeadHyphen] using h
  | cons a r =>
    by_cases ha : a = '-'
    · simp only [dropLeadHyphen, if_pos ha]
      cases r with
      | nil => simp
      | cons b t =>
        rwa [List.getLast?_cons_cons] at h
    · simpa only [dropLeadHyphen, if_neg ha] using h

theorem dropLead_id {l : JStr} (h : l.head? ≠ some '-') : dropLeadHyphen l = l := by
  cases l with
  | nil => rfl
  | cons a r =>
    have ha : a ≠ '-' := by
      intro hh
      exact h (by rw [hh]; rfl)
    simp only [dropLeadHyphen, if_neg ha]

theorem noHH_reverse {l : JStr} (h : NoHH l) : NoHH l.reverse := by
  unfold NoHH at *
  rw [List.chain'_reverse]
  exact h.imp fun a b hab hba => hab ⟨hba.2, hba.1⟩

theorem trim_subset {l : JStr} : ∀ c ∈ trimHyphens l, c ∈ l := by
  intro c hc
  unfold trimHyphens at hc
  rw [List.mem_reverse] at hc
  have h1 := dropLead_subset _ hc
  rw [List.mem_reverse] at h1
  exact dropLead_subset _ h1

theorem trim_spec {l : JStr} (h : NoHH l) :
    NoHH (trimHyphens l) ∧ (trimHyphens l).head? ≠ some '-' ∧
      (trimHyphens l).getLast? ≠ some '-' := by
  unfold trimHyphens
  have h1 : NoHH (dropLeadHyphen l) := dropLead_chain h
  have h1h : (dropLeadHyphen l).head? ≠ some '-' := dropLead_head h
  have h2 : NoHH (dropLeadHyphen l).reverse := noHH_reverse h1
  have h2l : (dropLeadHyphen l).reverse.getLast? ≠ some '-' := by
    rwa [List.getLast?_reverse]
  have h3 : NoHH (dropLeadHyphen (dropLeadHyphen l).reverse) := dropLead_chain h2
  have h3h : (dropLeadHyphen (dropLeadHyphen l).reverse).head? ≠ some '-' :=
    dropLead_head h2
  have h3l : (dropLeadHyphen (dropLeadHyphen l).reverse).getLast? ≠ some '-' :=
    dropLead_getLast h2l
  refine ⟨noHH_reverse h3, ?_, ?_⟩
  · rwa [List.head?_reverse]
  · rwa [List.getLast?_reverse]

theorem trim_id {l : JStr} (h1 : l.head? ≠ some '-') (h2 : l.getLast? ≠ some '-') :
    trimHyphens l = l := by
  unfold trimHyphens
  rw [dropLead_id h1, dropLead_id (by rwa [List.head?_reverse]), List.reverse_reverse]

end SlugUtils

namespace SlugUtils

theorem slugify_normalized (l : JStr) : Normalized (slugify l) := by
  unfold slugify spacesToHyphens collapseHyphens
  set F := List.filter isSlugSafe
    (spacesGo (List.filter (fun c => c ≠ ',')
      (List.filter (fun c => !isCombiningMark c) (nfd (l.map jsToLower)))) false) with hF
  have hFsafe : ∀ c ∈ F, isSlugSafe c = true := by
    intro c hc
    exact (List.mem_filter.mp hc).2
  have hCsafe : ∀ c ∈ collapseGo F false, isSlugSafe c = true :=
    collapseGo_pred (by decide) F false hFsafe
  have hCchain : NoHH (collapseGo F false) := (collapseGo_spec F).1
  obtain ⟨ht1, ht2, ht3⟩ := trim_spec hCchain
  exact ⟨fun c hc => hCsafe c (trim_subset c hc), ht1, ht2, ht3⟩

theorem slugify_id_of_normalized {m : JStr} (h : Normalized m) : slugify m = m := by
  obtain ⟨hsafe, hch, hh, hl⟩ := h
  unfold slugify spacesToHyphens collapseHyphens
  have e1 : m.map jsToLower = m := map_id_of_fix fun c hc => jsToLower_safe (hsafe c hc)
  have e2 : nfd m = m := nfd_id_of_fix fun c hc => nfdChar_safe (hsafe c hc)
  have e3 : List.filter (fun c => !isCombiningMark c) m = m :=
    List.filter_eq_self.mpr fun c hc => by simp [safe_not_mark (hsafe c hc)]
  have e4 : List.filter (fun c => c ≠ ',') m = m :=
    List.filter_eq_self.mpr fun c hc => by simp [safe_not_comma (hsafe c hc)]
  have e5 : spacesGo m false = m := spacesGo_id (fun c hc => safe_not_space (hsafe c hc)) false
  have e6 : List.filter isSlugSafe m = m := List.filter_eq_self.mpr hsafe
  rw [e1, e2, e3, e4, e5, e6, (collapseGo_id hch).1]
  exact trim_id hh hl

end SlugUtils

/-- C7: the Text Normalizer `slugify` is idempotent — normalizing an
already-normalized token returns it unchanged: for every string `s`,
`slugify (slugify s) = slugify s`. -/
theorem slugify_idempotent (s : JStr) :
    SlugUtils.slugify (SlugUtils.slugify s) = SlugUtils.slugify s :=
  SlugUtils.slugify_id_of_normalized (SlugUtils.slugify_normalized s)

/-- JavaScript `String.prototype.lastIndexOf` for a single character:
the index of the last occurrence, or `-1` when absent. -/
def jsLastIndexOf (c : Char) (l : JStr) : Int :=
  match l.reverse.findIdx? (· = c) with
  | none => -1
  | some i => (l.length : Int) - 1 - i

/-- JavaScript `String.prototype.split` with a single-character separator:
splits at every occurrence, keeping empty pieces (`"".split` is `[""]`). -/
def jsSplit (sep : Char) : JStr → List JStr
  | [] => [[]]
  | c :: r =>
    match jsSplit sep r with
    | [] => [[c]]
    | h :: t => if c = sep then [] :: h :: t else (c :: h) :: t

/-- JavaScript `String.prototype.trim`: strip whitespace from both ends. -/
def jsTrim (l : JStr) : JStr :=
  ((l.dropWhile SlugUtils.isJsSpace).reverse.dropWhile SlugUtils.isJsSpace).reverse

/-- Decimal representation of a natural number, as JavaScript `String(n)`. -/
def natToJStr (n : Nat) : JStr := (Nat.repr n).data

/-- JavaScript `String.prototype.padStart(n, c)`. -/
def padStart (n : Nat) (c : Char) (l : JStr) : JStr :=
  List.replicate (n - l.length) c ++ l

namespace SlugUtils

/-- `stripExtension` from `src/lib/slug-utils.ts`: drop everything from the
last dot on, except when the last dot is absent or at position 0. -/
def stripExtension (filename : JStr) : JStr :=
  let lastDotIndex := jsLastIndexOf '.' filename
  if lastDotIndex = -1 ∨ lastDotIndex = 0 then filename
  else filename.take lastDotIndex.toNat

/-- The six normalized platform keys (`PLATFORM_KEYS`). -/
inductive PlatformKey
  | web | instagram | pinterest | googleBusiness | messaging | print
deriving DecidableEq, Repr

/-- The string form of each platform key, as in `PLATFORM_KEYS`. -/
def PlatformKey.str : PlatformKey → JStr
  | .web => S "web"
  | .instagram => S "instagram"
  | .pinterest => S "pinterest"
  | .googleBusiness => S "google-business"
  | .messaging => S "messaging"
  | .print => S "print"

/-- `PLATFORM_KEYS` as a list. -/
def PLATFORM_KEYS : List PlatformKey :=
  [.web, .instagram, .pinterest, .googleBusiness, .messaging, .print]

/-- `idealPlatformExtensions`: the fixed per-platform ideal extension. -/
def idealPlatformExtensions : PlatformKey → JStr
  | .web => S "webp"
  | .instagram => S "jpg"
  | .pinterest => S "png"
  | .googleBusiness => S "webp"
  | .messaging => S "jpg"
  | .print => S "tiff"

/-- The recognised input formats of `getHonestExtension`. -/
def knownFormats : List JStr :=
  [S "jpg", S "jpeg", S "png", S "gif", S "webp", S "tiff", S "bmp"]

/-- `getHonestExtension` from `src/lib/slug-utils.ts`: the original file's
own (lowercased) extension when recognised (`jpeg` normalised to `jpg`),
otherwise `jpg`; the platform argument is ignored. -/
def getHonestExtension (originalFilename : JStr) (_platformKey : PlatformKey) : JStr :=
  let ext := ((jsSplit '.' originalFilename).getLastD []).map jsToLower
  if ext = [] then S "jpg"
  else if ext ∈ knownFormats then (if ext = S "jpeg" then S "jpg" else ext)
  else S "jpg"

/-- `buildFilename` from `src/lib/slug-utils.ts`:
`slugBase + "__" + platformKey + "." + honest extension`. -/
def buildFilename (slugBase : JStr) (platformKey : PlatformKey)
    (originalFilename : JStr) : JStr :=
  slugBase ++ S "__" ++ platformKey.str ++ S "." ++
    getHonestExtension originalFilename platformKey

/-- The six identity-field inputs of the slug builders (the source's
params object). -/
structure SlugParams where
  spaceName : JStr
  neighborhood : JStr
  city : JStr
  keywordMaster : JStr
  descriptor : JStr
  photoId : JStr

/-- `buildSlugBase` from `src/lib/slug-utils.ts`: slugify each field and
join as `space-neighborhood-city__keyword__descriptor__photoid`. -/
def buildSlugBase (p : SlugParams) : JStr :=
  slugify p.spaceName ++ S "-" ++ slugify p.neighborhood ++ S "-" ++ slugify p.city ++
    S "__" ++ slugify p.keywordMaster ++ S "__" ++ slugify p.descriptor ++
    S "__" ++ slugify p.photoId

end SlugUtils

namespace MetadataEngine

open SlugUtils

/-- `SPACE_CATEGORIES` from the metadata engine. -/
inductive SpaceCategory
  | exterior | entranceAccess | mainRoomWide | naturalLightWindows
  | cycloramaBackdrop | galleryWallsExhibition | eventSetupSeating
  | loungeClientArea | kitchenBar | projectorScreening | gearProduction | btsShoot
deriving DecidableEq, Repr

/-- `CATEGORY_KEYWORD_MASTER`: one keyword phrase per category. -/
def CATEGORY_KEYWORD_MASTER : SpaceCategory → JStr
  | .exterior => S "SoHo photo studio exterior"
  | .entranceAccess => S "creative space entrance NYC"
  | .mainRoomWide => S "open floor plan studio"
  | .naturalLightWindows => S "natural light photography studio"
  | .cycloramaBackdrop => S "white cyclorama wall rental"
  | .galleryWallsExhibition => S "gallery exhibition space SoHo"
  | .eventSetupSeating => S "event venue seating NYC"
  | .loungeClientArea => S "client lounge creative space"
  | .kitchenBar => S "studio kitchen bar area"
  | .projectorScreening => S "screening room projector rental"
  | .gearProduction => S "production gear storage"
  | .btsShoot => S "behind the scenes photo shoot"

/-- `SPACE_DESCRIPTORS`: the fixed 12-element descriptor set of the
metadata engine. -/
def SPACE_DESCRIPTORS : List JStr :=
  [S "floor-to-ceiling windows",
   S "industrial chic interior",
   S "minimalist white walls",
   S "high ceilings with natural light",
   S "exposed brick accents",
   S "flexible open layout",
   S "gallery-style white walls",
   S "modern lounge seating",
   S "professional lighting setup",
   S "versatile production space",
   S "downtown Manhattan views",
   S "curated design details"]

/-- `split(' ').slice(0, 2).join(' ')`: the first two space-separated words. -/
def firstTwoWords (l : JStr) : JStr :=
  List.intercalate (S " ") ((jsSplit ' ' l).take 2)

/-- `makeSlugBase` from the metadata engine: like `buildSlugBase`, but the
keyword and descriptor are first truncated to their first two words. -/
def makeSlugBase (p : SlugParams) : JStr :=
  slugify p.spaceName ++ S "-" ++ slugify p.neighborhood ++ S "-" ++ slugify p.city ++
    S "__" ++ slugify (firstTwoWords p.keywordMaster) ++
    S "__" ++ slugify (firstTwoWords p.descriptor) ++
    S "__" ++ slugify p.photoId

/-- The fixed per-platform filename suffix used by `makeFilenames`. -/
def filenameSuffix : PlatformKey → JStr
  | .web => S "web"
  | .instagram => S "ig"
  | .pinterest => S "pin"
  | .googleBusiness => S "gbp"
  | .messaging => S "msg"
  | .print => S "print"

/-- `makeFilenames` from the metadata engine: deterministic per-platform
filenames, all with a constant `.jpg` extension. -/
def makeFilenames (slugBase : JStr) : PlatformKey → JStr :=
  fun pk => slugBase ++ S "__" ++ filenameSuffix pk ++ S ".jpg"

/-- `makeAltWeb`. -/
def makeAltWeb (spaceName neighborhood city descriptor : JStr) : JStr :=
  descriptor ++ S " at " ++ spaceName ++ S " in " ++ neighborhood ++ S ", " ++ city

/-- `makeCaptionWeb`. -/
def makeCaptionWeb (spaceName neighborhood city descriptor : JStr) : JStr :=
  spaceName ++ S " in " ++ neighborhood ++ S ", " ++ city ++ S " featuring " ++
    descriptor ++ S ". Perfect for photo shoots, events, and creative productions."

/-- `makeCaptionInstagram`. -/
def makeCaptionInstagram (spaceName descriptor : JStr) (features : List JStr)
    (cta : JStr) (hashtags : List JStr) : JStr :=
  let featuresList := List.intercalate (S ", ") (features.take 3)
  let hashtagString :=
    List.intercalate (S " ")
      (hashtags.map fun h => if h.head? = some '#' then h else '#' :: h)
  S "✨ " ++ spaceName ++ S " — " ++ descriptor ++ S "\n\nFeatures: " ++
    featuresList ++ S "\n\n" ++ cta ++ S "\n\n" ++ hashtagString

/-- `makeCaptionGoogleBusiness`. -/
def makeCaptionGoogleBusiness (neighborhood city descriptor : JStr)
    (bookingsPlaceholder : JStr := S "Book now via our website") : JStr :=
  S "Professional creative space in " ++ neighborhood ++ S ", " ++ city ++ S ". " ++
    descriptor ++ S ". " ++ bookingsPlaceholder ++ S "."

/-- `makePinterestTitle`. -/
def makePinterestTitle (keywordMaster descriptor neighborhood city : JStr) : JStr :=
  keywordMaster ++ S " | " ++ descriptor ++ S " | " ++ neighborhood ++ S " " ++ city

/-- `makePinterestDescription`. -/
def makePinterestDescription (keywordMaster descriptor neighborhood city : JStr)
    (cta : JStr := S "Save for your next shoot!") : JStr :=
  S "Discover this " ++ keywordMaster ++ S " featuring " ++ descriptor ++ S " in " ++
    neighborhood ++ S ", " ++ city ++ S ". " ++ cta

/-- `getKeywordMasterForCategory`. -/
def getKeywordMasterForCategory (category : SpaceCategory) : JStr :=
  CATEGORY_KEYWORD_MASTER category

/-- Sum of the character codes of a string — the hash of
`getDescriptorForImage`. -/
def charCodeSum (l : JStr) : Nat := l.foldl (fun acc c => acc + c.toNat) 0

/-- `getDescriptorForImage`: a stable descriptor chosen by the character-code
sum of the image name, modulo the descriptor-set size — not random. -/
def getDescriptorForImage (imageName : JStr) : JStr :=
  SPACE_DESCRIPTORS.getD (charCodeSum imageName % SPACE_DESCRIPTORS.length) (S "")

/-- The category-specific hashtag pairs of `generateHashtags`. -/
def categoryHashtags : SpaceCategory → List JStr
  | .exterior => [S "studiofacade", S "streetview"]
  | .entranceAccess => [S "studioentrance", S "welcomespace"]
  | .mainRoomWide => [S "openfloorplan", S "studioshoot"]
  | .naturalLightWindows => [S "naturallight", S "windowlight"]
  | .cycloramaBackdrop => [S "cyclorama", S "whitebackdrop"]
  | .galleryWallsExhibition => [S "galleryspace", S "artexhibition"]
  | .eventSetupSeating => [S "eventvenue", S "privateevents"]
  | .loungeClientArea => [S "clientlounge", S "greenroom"]
  | .kitchenBar => [S "studioamenities", S "cateringspace"]
  | .projectorScreening => [S "screeningroom", S "projectorroom"]
  | .gearProduction => [S "productionspace", S "studiogear"]
  | .btsShoot => [S "behindthescenes", S "bts"]

/-- `generateHashtags`: base tags (whitespace-stripped, lowercased
neighborhood and city plus three fixed tags) followed by the category tags. -/
def generateHashtags (category : SpaceCategory) (neighborhood city : JStr) :
    List JStr :=
  let baseHashtags :=
    [(neighborhood.filter (fun c => !SlugUtils.isJsSpace c)).map jsToLower,
     (city.filter (fun c => !SlugUtils.isJsSpace c)).map jsToLower,
     S "photostudio", S "creativespace", S "nycphotography"]
  baseHashtags ++ categoryHashtags category

/-- `generatePhotoId`: slugified extension-stripped base name when it has at
most 20 characters, otherwise `index + 1` left-padded with zeros to width 3. -/
def generatePhotoId (imageName : JStr) (index : Nat) : JStr :=
  let ext := jsLastIndexOf '.' imageName
  let baseName := if ext > 0 then imageName.take ext.toNat else imageName
  if baseName.length > 20 then padStart 3 '0' (natToJStr (index + 1))
  else slugify baseName

end MetadataEngine

namespace SeoTemplates

/-- `masterKeywords` from `src/lib/seo-templates.ts`. -/
def masterKeywords : List JStr :=
  [S "photo studio", S "creative space", S "event venue", S "natural light",
   S "cyclorama", S "rental studio", S "production space", S "gallery space",
   S "lounge area", S "downtown location"]

/-- `categoryKeywords`: string-keyed category-to-keywords record. -/
def categoryKeywords (category : JStr) : List JStr :=
  if category = S "Studio Photography" then
    [S "professional studio", S "photo shoot", S "creative lighting",
     S "white backdrop", S "cyclorama wall"]
  else if category = S "Event Coverage" then
    [S "event photography", S "celebration", S "gathering",
     S "party venue", S "special occasion"]
  else if category = S "Fashion / Editorial" then
    [S "fashion shoot", S "editorial photography", S "model photography",
     S "lookbook", S "high fashion"]
  else if category = S "Product Photography" then
    [S "product shoot", S "commercial photography", S "e-commerce",
     S "still life", S "catalog"]
  else if category = S "Portrait / Headshots" then
    [S "portrait photography", S "headshots", S "professional portrait",
     S "personal branding", S "corporate headshots"]
  else if category = S "Architecture / Interiors" then
    [S "interior design", S "architectural photography", S "space design",
     S "real estate", S "venue photos"]
  else []

/-- `spaceDescriptors` from `src/lib/seo-templates.ts` (the 12-element set
consumed by `getRandomDescriptor`). -/
def spaceDescriptors : List JStr :=
  [S "natural light studio", S "floor-to-ceiling windows", S "white cyclorama wall",
   S "industrial chic interior", S "minimalist design", S "gallery-style walls",
   S "lounge seating area", S "projector setup", S "open floor plan",
   S "high ceilings", S "exposed brick accents", S "flexible layout"]

/-- `getRandomDescriptor` from `src/lib/seo-templates.ts`. The call to
`Math.random()` is modelled by the explicit oracle argument `random`
(a real in `[0,1)`): the function picks
`spaceDescriptors[Math.floor(random * spaceDescriptors.length)]`. -/
def getRandomDescriptor (random : ℚ) : JStr :=
  spaceDescriptors.getD (Int.toNat ⌊random * (spaceDescriptors.length : ℚ)⌋) (S "")

/-- `getKeywordsForCategory`: category keywords followed by up to three
master keywords not already present. -/
def getKeywordsForCategory (category : JStr) : List JStr :=
  let categorySpecific := categoryKeywords category
  let masterSample := (masterKeywords.filter (fun k => k ∉ categorySpecific)).take 3
  categorySpecific ++ masterSample

end SeoTemplates

namespace ImageProcessor

open SlugUtils

/-- `PlatformExportConfig`: per-surface maximum pixel dimension and
compression quality. -/
structure PlatformExportConfig where
  maxDimension : Nat
  quality : ℚ
  label : JStr

/-- `platformExportConfigs` from `src/lib/image-processor.ts`. -/
def platformExportConfigs : PlatformKey → PlatformExportConfig
  | .web => ⟨2000, 78/100, S "Web"⟩
  | .instagram => ⟨1080, 82/100, S "Instagram"⟩
  | .pinterest => ⟨1500, 82/100, S "Pinterest"⟩
  | .googleBusiness => ⟨1600, 80/100, S "Google Business"⟩
  | .messaging => ⟨1600, 70/100, S "Messaging"⟩
  | .print => ⟨4000, 92/100, S "Print"⟩

/-- JavaScript `Math.round`: round half towards positive infinity. -/
def jsRound (q : ℚ) : ℤ := ⌊q + 1 / 2⌋

/-- `calculateDimensions` from `src/lib/image-processor.ts`: keep the
original size when the longest edge already fits, otherwise scale both
dimensions by `maxDimension / longestEdge`, rounding each independently. -/
def calculateDimensions (originalWidth originalHeight maxDimension : Nat) :
    ℤ × ℤ :=
  let longestEdge := max originalWidth originalHeight
  if longestEdge ≤ maxDimension then ((originalWidth : ℤ), (originalHeight : ℤ))
  else
    let scale : ℚ := (maxDimension : ℚ) / (longestEdge : ℚ)
    (jsRound ((originalWidth : ℚ) * scale), jsRound ((originalHeight : ℚ) * scale))

/-- The dimension part of `processImageForPlatform`: the canvas is sized by
`calculateDimensions` applied to the platform's configured maximum. -/
def processedDimensions (platformKey : PlatformKey) (originalWidth originalHeight : Nat) :
    ℤ × ℤ :=
  calculateDimensions originalWidth originalHeight
    (platformExportConfigs platformKey).maxDimension

end ImageProcessor

namespace ImageCtx

open SlugUtils MetadataEngine

/-- The fixed `SPACE_CONFIG` of the image context. -/
def SPACE_CONFIG_spaceName : JStr := S "Studio"
def SPACE_CONFIG_neighborhood : JStr := S "SoHo"
def SPACE_CONFIG_city : JStr := S "NYC"

/-- `parseLocation`: split on commas, trim each part; with at least two
parts the first is the neighborhood and the rest (joined by spaces) the
city; otherwise fall back to the location itself (or the space config). -/
def parseLocation (location : JStr) : JStr × JStr :=
  let parts := (jsSplit ',' location).map jsTrim
  if 2 ≤ parts.length then
    (parts.getD 0 [], jsTrim (List.intercalate (S " ") (parts.drop 1)))
  else
    (if location ≠ [] then location else SPACE_CONFIG_neighborhood, SPACE_CONFIG_city)

/-- `UploadedImage` (the fields consumed by metadata generation and
export; the raw file handle, object URL, status and tags play no part in
the claims and are omitted). -/
structure UploadedImage where
  id : Nat
  name : JStr
  photoId : JStr
  category : SpaceCategory
  descriptor : JStr
  keywordMaster : JStr
  hashtags : List JStr
deriving DecidableEq

/-- The image record built by `addImages` for the file at offset `idx` of a
batch starting at `startIndex` (ids are modelled by a supplied number; the
source draws them from `Date.now()` and `Math.random()`). -/
def mkUploadedImage (id_ : Nat) (name : JStr) (startIndex idx : Nat) : UploadedImage :=
  let photoId := generatePhotoId name (startIndex + idx)
  let category : SpaceCategory := .mainRoomWide
  let descriptor := getDescriptorForImage name
  let keywordMaster := getKeywordMasterForCategory category
  let loc := parseLocation (S "SoHo, New York City")
  let hashtags := generateHashtags category loc.1 loc.2
  { id := id_, name := name, photoId := photoId, category := category,
    descriptor := descriptor, keywordMaster := keywordMaster, hashtags := hashtags }

/-- `ImageMetadata`: the persisted per-image, per-platform metadata record. -/
structure ImageMetadata where
  filename : JStr
  altText : JStr
  caption : JStr
  descriptor : JStr
  keywordMaster : JStr
  slugBase : JStr
  neighborhood : JStr
  city : JStr
  newFilename : JStr
  pinterestTitle : JStr
  pinterestDescription : JStr
deriving DecidableEq

/-- `generateMetadataForImage` from the image context: build the slug base
and filename with the metadata engine, then the platform-specific caption. -/
def generateMetadataForImage (image : UploadedImage) (platform : PlatformKey)
    (location : JStr) : ImageMetadata :=
  let loc := parseLocation location
  let neighborhood := loc.1
  let city := loc.2
  let keywordMaster := image.keywordMaster
  let descriptor := image.descriptor
  let photoId := image.photoId
  let hashtags := image.hashtags
  let slugBase := makeSlugBase
    { spaceName := SPACE_CONFIG_spaceName, neighborhood := neighborhood,
      city := city, keywordMaster := keywordMaster, descriptor := descriptor,
      photoId := photoId }
  let newFilename := makeFilenames slugBase platform
  let altText := makeAltWeb SPACE_CONFIG_spaceName neighborhood city descriptor
  let capTriple :=
    match platform with
    | .web => (makeCaptionWeb SPACE_CONFIG_spaceName neighborhood city descriptor, S "", S "")
    | .instagram =>
      (makeCaptionInstagram SPACE_CONFIG_spaceName descriptor
        [keywordMaster, S "natural light", S "flexible layout"]
        (S "Book your session today! 📸") hashtags, S "", S "")
    | .googleBusiness =>
      (makeCaptionGoogleBusiness neighborhood city descriptor, S "", S "")
    | .pinterest =>
      (makePinterestDescription keywordMaster descriptor neighborhood city,
       makePinterestTitle keywordMaster descriptor neighborhood city,
       makePinterestDescription keywordMaster descriptor neighborhood city)
    | _ => (makeCaptionWeb SPACE_CONFIG_spaceName neighborhood city descriptor, S "", S "")
  { filename := newFilename, altText := altText, caption := capTriple.1,
    descriptor := descriptor, keywordMaster := keywordMaster, slugBase := slugBase,
    neighborhood := neighborhood, city := city, newFilename := newFilename,
    pinterestTitle := capTriple.2.1, pinterestDescription := capTriple.2.2 }

/-- One end-to-end metadata-generation run for a freshly uploaded image:
`addImages` derives the image's identity fields from its filename and batch
position, and `generateMetadataForImage` turns them into persisted
metadata. The `random` argument is the oracle for `Math.random()`; this
path never consults it (the only random-consuming generator,
`SeoTemplates.getRandomDescriptor`, is not called). -/
def generateMetadataRun (random : ℚ) (id_ : Nat) (name : JStr) (startIndex idx : Nat)
    (platform : PlatformKey) (location : JStr) : ImageMetadata :=
  let _ := random
  generateMetadataForImage (mkUploadedImage id_ name startIndex idx) platform location

end ImageCtx

namespace Export

open SlugUtils ImageCtx

/-- Double every double-quote character (the CSV quote-escaping of
`Papa.unparse` with `escapeChar: '"'`). -/
def doubleQuotes : JStr → JStr
  | [] => []
  | c :: r => if c = '"' then '"' :: '"' :: doubleQuotes r else c :: doubleQuotes r

/-- Render one CSV field as `Papa.unparse` does with `quotes: true`:
wrap in double quotes, doubling interior quotes. -/
def csvEscapeField (f : JStr) : JStr := '"' :: (doubleQuotes f ++ ['"'])

/-- `Papa.unparse` with `quotes: true, header: true`: one physical line per
row (Papa's default `\r\n` row separator), every field quoted. -/
def papaUnparse (header : List JStr) (rows : List (List JStr)) : JStr :=
  List.intercalate (S "\r\n")
    ((header :: rows).map fun r => List.intercalate (S ",") (r.map csvEscapeField))

/-- Collapse doubled double-quotes back to one (CSV field unescaping). -/
def undouble : JStr → JStr
  | [] => []
  | [c] => [c]
  | a :: b :: r =>
    if a = '"' ∧ b = '"' then '"' :: undouble r else a :: undouble (b :: r)

/-- Parse one quoted CSV field back: strip the surrounding quotes and
undouble interior quotes. -/
def csvUnescapeField (f : JStr) : JStr :=
  if f.head? = some '"' ∧ f.getLast? = some '"' then undouble (f.drop 1).dropLast
  else f

/-- First pass of `sanitizeCaption`: each `\r\n` becomes the literal
two-character sequence backslash-`n`. -/
def replCRLF : JStr → JStr
  | [] => []
  | [c] => [c]
  | a :: b :: r =>
    if a = '\r' ∧ b = '\n' then '\\' :: 'n' :: replCRLF r
    else a :: replCRLF (b :: r)

/-- Replace every occurrence of `target` by the literal two-character
sequence backslash-`n`. -/
def replNl (target : Char) : JStr → JStr
  | [] => []
  | c :: r =>
    if c = target then '\\' :: 'n' :: replNl target r else c :: replNl target r

/-- `sanitizeCaption` from `src/pages/Export.tsx`: rewrite `\r\n`, `\n` and
`\r` (in that order) to the literal two-character sequence backslash-`n`. -/
def sanitizeCaption (caption : JStr) : JStr :=
  replNl '\r' (replNl '\n' (replCRLF caption))

/-- The long-form manifest row (`CSVRow`). -/
structure CSVRow where
  original_filename : JStr
  platform : JStr
  new_filename : JStr
  alt_text : JStr
  caption : JStr
  category : JStr
  location : JStr
  keyword_master : JStr
  descriptor : JStr
  slug_base : JStr
deriving DecidableEq

/-- The long-form header, in the key order of `CSVRow`. -/
def longCsvHeader : List JStr :=
  [S "original_filename", S "platform", S "new_filename", S "alt_text", S "caption",
   S "category", S "location", S "keyword_master", S "descriptor", S "slug_base"]

/-- The fields of a long-form row, in header order. -/
def csvRowFields (r : CSVRow) : List JStr :=
  [r.original_filename, r.platform, r.new_filename, r.alt_text, r.caption,
   r.category, r.location, r.keyword_master, r.descriptor, r.slug_base]

/-- `generateCSV`: the long-form manifest, all fields quoted, with header. -/
def generateCSV (rows : List CSVRow) : JStr :=
  papaUnparse longCsvHeader (rows.map csvRowFields)

/-- The persisted metadata table: per image id, per platform. -/
def MetadataMap := Nat → PlatformKey → Option ImageMetadata

/-- A missing (image, surface) pair reported by pre-flight validation. -/
structure MissingPair where
  imageId : Nat
  imageName : JStr
  platformKey : PlatformKey
deriving DecidableEq

/-- `checkMissingMetadata`: every (image, platform) pair of the selected
cross-product whose persisted entry is absent or has an empty (falsy)
`slugBase` or `newFilename`. -/
def checkMissingMetadata (imgs : List UploadedImage) (plats : List PlatformKey)
    (mm : MetadataMap) : List MissingPair :=
  imgs.bind fun image =>
    plats.filterMap fun platformKey =>
      match mm image.id platformKey with
      | none => some ⟨image.id, image.name, platformKey⟩
      | some meta =>
        if meta.slugBase = [] ∨ meta.newFilename = [] then
          some ⟨image.id, image.name, platformKey⟩
        else none

/-- A file scheduled for the archive (`fileEntries` element). -/
structure FileEntry where
  platformKey : PlatformKey
  filename : JStr
  image : UploadedImage
deriving DecidableEq

/-- `buildExportData`: walk the (image, platform) cross-product in order,
reading only persisted metadata; `none` (the source's `null` early return)
as soon as any entry is absent or has empty `slugBase`/`newFilename`. -/
def buildExportData (imgs : List UploadedImage) (plats : List PlatformKey)
    (mm : MetadataMap) (currentCategory : JStr) :
    Option (List CSVRow × List FileEntry) :=
  let pairs := imgs.bind fun i => plats.map fun pk => (i, pk)
  (pairs.mapM (fun (ip : UploadedImage × PlatformKey) =>
    match mm ip.1.id ip.2 with
    | none => none
    | some meta =>
      if meta.slugBase = [] ∨ meta.newFilename = [] then none
      else
        some
          (CSVRow.mk ip.1.name ip.2.str meta.newFilename meta.altText
             (sanitizeCaption meta.caption) currentCategory
             (meta.neighborhood ++ S ", " ++ meta.city) meta.keywordMaster
             meta.descriptor meta.slugBase,
           FileEntry.mk ip.2 meta.newFilename ip.1)) :
      Option (List (CSVRow × FileEntry))).map
    fun l => (l.map Prod.fst, l.map Prod.snd)

/-- `runSelfTest`: `none` when the three counts agree, otherwise the
source's mismatch message. -/
def runSelfTest (expectedFiles actualZipFiles csvRowCount : Nat) : Option JStr :=
  if expectedFiles ≠ actualZipFiles then
    some (S "ZIP file count mismatch: expected " ++ natToJStr expectedFiles ++
      S ", got " ++ natToJStr actualZipFiles)
  else if expectedFiles ≠ csvRowCount then
    some (S "CSV row count mismatch: expected " ++ natToJStr expectedFiles ++
      S ", got " ++ natToJStr csvRowCount)
  else none

/-- `generateMasterCSV` (wide form, row per photo with web metadata). -/
def generateMasterCSV (imgs : List UploadedImage) (mm : MetadataMap)
    (currentCategory : JStr) : JStr :=
  let getMeta := fun (image : UploadedImage) (pk : PlatformKey) =>
    match mm image.id pk with
    | some m => if m.slugBase ≠ [] ∧ m.newFilename ≠ [] then some m else none
    | none => none
  let fname := fun (image : UploadedImage) (pk : PlatformKey) =>
    ((getMeta image pk).map (fun m => m.newFilename)).getD []
  let rows := imgs.filterMap fun image =>
    match getMeta image .web with
    | none => none
    | some webMeta =>
      let keywords := SeoTemplates.getKeywordsForCategory currentCategory
      let hashtags := List.intercalate (S " ")
        ((keywords.take 5).map fun k =>
          '#' :: k.filter (fun c => !SlugUtils.isJsSpace c))
      some
        [stripExtension image.name, image.name, currentCategory,
         webMeta.neighborhood, webMeta.city, webMeta.descriptor,
         webMeta.keywordMaster, webMeta.slugBase,
         fname image .web, fname image .instagram, fname image .pinterest,
         fname image .googleBusiness, fname image .messaging, fname image .print,
         (((getMeta image .web).map fun m => m.altText).getD []),
         (((getMeta image .web).map fun m => m.caption).getD []),
         (((getMeta image .instagram).map fun m => m.caption).getD []),
         (((getMeta image .googleBusiness).map fun m => m.caption).getD []),
         currentCategory ++ S " Ideas | " ++ webMeta.neighborhood ++ S " " ++ webMeta.city,
         webMeta.descriptor ++ S " perfect for " ++ currentCategory.map jsToLower ++
           S ". Book now!",
         hashtags, []]
  papaUnparse
    [S "photo_id", S "original_filename", S "category", S "neighborhood", S "city",
     S "descriptor", S "keyword_master", S "slug_base", S "filename_web",
     S "filename_instagram", S "filename_pinterest", S "filename_gbp",
     S "filename_messaging", S "filename_print", S "alt_web", S "caption_web",
     S "caption_instagram", S "caption_google_business", S "pinterest_title",
     S "pinterest_description", S "hashtags", S "notes"]
    rows

end Export

namespace Export

open SlugUtils ImageCtx

/-- The stages of one export run (cf. the orchestrator's state machine
`Idle → ValidatingMetadata → … → Finalized`). -/
inductive Phase
  | validating | building | transcoding | selfTesting | packaging
deriving DecidableEq, Repr

/-- The outcome of transcoding one (image, surface) artifact. A success
carries the encoded blob (modelled by an opaque number); the three failure
modes are the `LoadError` / `RenderError` / `EncodeError` of the Image
Transcoder (`loadImage` rejection, null canvas context, null `toBlob`
result), all caught by the per-entry `try`/`catch`. -/
inductive TranscodeOutcome
  | success (blob : Nat)
  | loadError
  | renderError
  | encodeError
deriving DecidableEq

/-- A file placed in the archive: surface folder, filename, blob. -/
abbrev ZipFile := PlatformKey × JStr × Nat

/-- JSZip `folder.file(name, blob)`: create the entry, or — since JSZip
keys entries by path — replace the content of an existing entry with the
same name in the same folder, keeping its position; a second call with the
same name therefore leaves a single file in the archive. -/
def zipUpsert (files : List ZipFile) (pk : PlatformKey) (name : JStr)
    (b : Nat) : List ZipFile :=
  if files.any fun f => f.1 = pk && f.2.1 = name then
    files.map fun f => if f.1 = pk ∧ f.2.1 = name then (pk, name, b) else f
  else files ++ [(pk, name, b)]

/-- The per-entry loop of `handleExportPack`, threading the zip state and
`addedFileCount`: each entry is transcoded; a success is filed into its
platform folder with `zipUpsert` (so a same-named entry is replaced, not
duplicated) and counted, a failure is skipped (`console.warn`) and the
loop continues with the next entry. -/
def transcodeGo (outcome : FileEntry → TranscodeOutcome) :
    List FileEntry → List ZipFile → Nat → List ZipFile × Nat
  | [], zip, added => (zip, added)
  | e :: rest, zip, added =>
    match outcome e with
    | .success b =>
      transcodeGo outcome rest (zipUpsert zip e.platformKey e.filename b)
        (added + 1)
    | _ => transcodeGo outcome rest zip added

/-- The whole loop, starting from the empty archive and a zero count. -/
def transcodeLoop (entries : List FileEntry)
    (outcome : FileEntry → TranscodeOutcome) : List ZipFile × Nat :=
  transcodeGo outcome entries [] 0

/-- `ExportManifest`: the summary counts shown after a run. -/
structure ExportManifest where
  selectedImageCount : Nat
  platformCount : Nat
  expectedTotalFiles : Nat
  actualZipFiles : Nat
  csvRowsGenerated : Nat
deriving DecidableEq

/-- The finalized archive: per-surface files, the long-form rows and their
serialized form (`metadata.csv`), the wide-form `metadata_master.csv`, and
the manifest counts. -/
structure Archive where
  files : List ZipFile
  csvRows : List CSVRow
  metadataCsv : JStr
  masterCsv : JStr
  manifest : ExportManifest
deriving DecidableEq

/-- The terminal result of one `handleExportPack` run. -/
inductive ExportResult
  | abortedMissingMeta (message : JStr) (details : List JStr)
  | abortedReadFailure
  | abortedSelfTest (message : JStr) (details : List JStr)
  | finalized (archive : Archive)
deriving DecidableEq

/-- The detail lines surfaced on a missing-metadata abort: the first ten
missing pairs as `name → platform`, plus a `… and N more` line when more
than ten are missing. -/
def detailsOf (missing : List MissingPair) : List JStr :=
  let details := (missing.take 10).map fun m =>
    m.imageName ++ S " → " ++ m.platformKey.str
  if 10 < missing.length then
    details ++ [S "... and " ++ natToJStr (missing.length - 10) ++ S " more"]
  else details

/-- `handleExportPack` from `src/pages/Export.tsx`: validate metadata
(abort with the detail list on any gap), build rows and file entries
(abort on read failure), transcode each entry (skipping failures), run the
self-test (abort before packaging on any count mismatch), then package the
archive with both manifests. The returned phase trace records which stages
of the run were entered. -/
def handleExportPack (imgs : List UploadedImage) (plats : List PlatformKey)
    (mm : MetadataMap) (currentCategory : JStr)
    (outcome : FileEntry → TranscodeOutcome) : ExportResult × List Phase :=
  let missing := checkMissingMetadata imgs plats mm
  if missing ≠ [] then
    (.abortedMissingMeta (S "Missing metadata. Please run Optimize first.")
      (detailsOf missing), [.validating])
  else
    match buildExportData imgs plats mm currentCategory with
    | none => (.abortedReadFailure, [.validating, .building])
    | some (csvRows, fileEntries) =>
      let expectedFileCount := imgs.length * plats.length
      let tl := transcodeLoop fileEntries outcome
      match runSelfTest expectedFileCount tl.2 csvRows.length with
      | some err =>
        (.abortedSelfTest (S "Self-test failed: ZIP/CSV mismatch") [err],
         [.validating, .building, .transcoding, .selfTesting])
      | none =>
        (.finalized
          ⟨tl.1, csvRows, generateCSV csvRows,
           generateMasterCSV imgs mm currentCategory,
           ⟨imgs.length, plats.length, expectedFileCount, tl.2, csvRows.length⟩⟩,
         [.validating, .building, .transcoding, .selfTesting, .packaging])

end Export

open SlugUtils MetadataEngine ImageCtx in
/-- C3: metadata generation is deterministic — for a fixed image (original
filename), fixed batch position and fixed identity-field inputs, two
independent runs (modelled by two arbitrary values of the `Math.random()`
oracle) produce byte-identical metadata records, in particular identical
slugs, filenames, alt text and captions; and the descriptor is the pure
character-code-sum hash of the filename modulo the descriptor-set size,
never a random draw. -/
theorem metadata_generation_deterministic (r₁ r₂ : ℚ) (id_ : Nat) (name : JStr)
    (startIndex idx : Nat) (pk : PlatformKey) (loc : JStr) :
    generateMetadataRun r₁ id_ name startIndex idx pk loc =
      generateMetadataRun r₂ id_ name startIndex idx pk loc ∧
    (generateMetadataRun r₁ id_ name startIndex idx pk loc).slugBase =
      (generateMetadataRun r₂ id_ name startIndex idx pk loc).slugBase ∧
    (generateMetadataRun r₁ id_ name startIndex idx pk loc).newFilename =
      (generateMetadataRun r₂ id_ name startIndex idx pk loc).newFilename ∧
    (generateMetadataRun r₁ id_ name startIndex idx pk loc).altText =
      (generateMetadataRun r₂ id_ name startIndex idx pk loc).altText ∧
    (generateMetadataRun r₁ id_ name startIndex idx pk loc).caption =
      (generateMetadataRun r₂ id_ name startIndex idx pk loc).caption ∧
    (generateMetadataRun r₁ id_ name startIndex idx pk loc).descriptor =
      SPACE_DESCRIPTORS.getD (charCodeSum name % SPACE_DESCRIPTORS.length) (S "") :=
  ⟨rfl, rfl, rfl, rfl, rfl, rfl⟩

open SlugUtils MetadataEngine in
/-- C4 counterexample: the live metadata engine's `makeFilenames` does not
produce `slugBase + "__" + surfaceKey + "." + extension` for the
`instagram` surface: for an image whose original extension is `png`, the
generated name `s__ig.jpg` matches neither the ideal-extension form
`s__instagram.jpg` nor the original-extension form `s__instagram.png`. -/
theorem makeFilenames_surface_key_cex :
    makeFilenames (S "s") PlatformKey.instagram ≠
      S "s" ++ S "__" ++ PlatformKey.instagram.str ++ S "." ++
        idealPlatformExtensions PlatformKey.instagram ∧
    makeFilenames (S "s") PlatformKey.instagram ≠
      S "s" ++ S "__" ++ PlatformKey.instagram.str ++ S "." ++
        getHonestExtension (S "x.png") PlatformKey.instagram := by
  constructor <;> decide

open SlugUtils MetadataEngine in
/-- C4 (amended): `buildFilename` from slug-utils does follow
`slugBase + "__" + surfaceKey + "." + extension`, with the extension the
image's own normalized original extension, which is independent of the
surface (hence one policy, applied consistently within a run); the
metadata engine's `makeFilenames`, used by the live generation path,
instead appends a fixed abbreviated per-surface suffix
(`web`/`ig`/`pin`/`gbp`/`msg`/`print`) with a constant `.jpg` extension. -/
theorem filename_shape_amended :
    (∀ (slugBase orig : JStr) (pk : PlatformKey),
      buildFilename slugBase pk orig =
        slugBase ++ S "__" ++ pk.str ++ S "." ++ getHonestExtension orig pk) ∧
    (∀ (orig : JStr) (pk₁ pk₂ : PlatformKey),
      getHonestExtension orig pk₁ = getHonestExtension orig pk₂) ∧
    (∀ (slugBase : JStr) (pk : PlatformKey),
      makeFilenames slugBase pk =
        slugBase ++ S "__" ++ filenameSuffix pk ++ S ".jpg") :=
  ⟨fun _ _ _ => rfl, fun _ _ _ => rfl, fun _ _ => rfl⟩

open SlugUtils MetadataEngine in
/-- C8 counterexample: on the live inputs of the `main_room_wide` category,
the metadata engine's slug synthesizer `makeSlugBase` does not equal the
plain join of the six independently-slugified fields (`buildSlugBase`): the
keyword `open floor plan` is first truncated to its first two words. -/
theorem makeSlugBase_truncates_cex :
    makeSlugBase
        ⟨S "Studio", S "SoHo", S "NYC", S "open floor plan",
         S "floor-to-ceiling windows", S "img4521"⟩ ≠
      buildSlugBase
        ⟨S "Studio", S "SoHo", S "NYC", S "open floor plan",
         S "floor-to-ceiling windows", S "img4521"⟩ := by
  decide

open SlugUtils MetadataEngine in
/-- C8 (amended): `buildSlugBase` joins the six independently-slugified
identity fields as `subject-sublocation-city__keyword__descriptor__photoid`
with no other transformation; the metadata engine's `makeSlugBase` (the
live slug synthesizer) uses the same join but first truncates the keyword
and the descriptor to their first two space-separated words. -/
theorem slug_synthesizer_amended (p : SlugParams) :
    buildSlugBase p =
      slugify p.spaceName ++ S "-" ++ slugify p.neighborhood ++ S "-" ++
        slugify p.city ++ S "__" ++ slugify p.keywordMaster ++ S "__" ++
        slugify p.descriptor ++ S "__" ++ slugify p.photoId ∧
    makeSlugBase p =
      slugify p.spaceName ++ S "-" ++ slugify p.neighborhood ++ S "-" ++
        slugify p.city ++ S "__" ++ slugify (firstTwoWords p.keywordMaster) ++
        S "__" ++ slugify (firstTwoWords p.descriptor) ++ S "__" ++
        slugify p.photoId :=
  ⟨rfl, rfl⟩

namespace MetadataEngine

open SlugUtils

theorem jsLastIndexOf_ge (c : Char) (l : JStr) : -1 ≤ jsLastIndexOf c l := by
  unfold jsLastIndexOf
  cases hf : l.reverse.findIdx? (· = c) with
  | none => exact le_refl _
  | some i =>
    have hi : i < l.reverse.length := (List.findIdx?_eq_some_iff_findIdx_eq.mp hf).1
    rw [List.length_reverse] at hi
    show (-1 : Int) ≤ (l.length : Int) - 1 - i
    omega

theorem photoIdBase_eq_stripExtension (name : JStr) :
    (if (0 : Int) < jsLastIndexOf '.' name then
        name.take (jsLastIndexOf '.' name).toNat
      else name) = stripExtension name := by
  have hge := jsLastIndexOf_ge '.' name
  unfold stripExtension
  by_cases h0 : (0 : Int) < jsLastIndexOf '.' name
  · rw [if_pos h0, if_neg (by omega)]
  · rw [if_neg h0, if_pos (by omega)]

theorem generatePhotoId_eq (name : JStr) (index : Nat) :
    generatePhotoId name index =
      if 20 < (stripExtension name).length then
        padStart 3 '0' (natToJStr (index + 1))
      else slugify (stripExtension name) := by
  show (if 20 < (if (0 : Int) < jsLastIndexOf '.' name then
        name.take (jsLastIndexOf '.' name).toNat else name).length then
      padStart 3 '0' (natToJStr (index + 1))
    else slugify (if (0 : Int) < jsLastIndexOf '.' name then
        name.take (jsLastIndexOf '.' name).toNat else name)) = _
  rw [photoIdBase_eq_stripExtension]

end MetadataEngine

open SlugUtils MetadataEngine in
/-- C10: `generatePhotoId` derives the photo id from the filename — as
`slugify` of the extension-stripped base name — exactly when that base name
has at most 20 characters; for any longer base name it returns `index + 1`
zero-padded to three digits, which depends only on the image's batch
position, not on the filename. -/
theorem generatePhotoId_spec (name name' : JStr) (index : Nat) :
    ((stripExtension name).length ≤ 20 →
      generatePhotoId name index = slugify (stripExtension name)) ∧
    (20 < (stripExtension name).length →
      generatePhotoId name index = padStart 3 '0' (natToJStr (index + 1))) ∧
    (20 < (stripExtension name).length → 20 < (stripExtension name').length →
      generatePhotoId name index = generatePhotoId name' index) := by
  refine ⟨fun h => ?_, fun h => ?_, fun h h' => ?_⟩
  · rw [generatePhotoId_eq, if_neg (by omega)]
  · rw [generatePhotoId_eq, if_pos h]
  · rw [generatePhotoId_eq, if_pos h, generatePhotoId_eq, if_pos h']

/-- C10 witness: a short base name is slugified; a 21-character base name
falls back to the padded index, independently of the filename. -/
theorem generatePhotoId_spec_witness :
    MetadataEngine.generatePhotoId (S "IMG 4521.jpg") 0 =
      SlugUtils.slugify (SlugUtils.stripExtension (S "IMG 4521.jpg")) ∧
    MetadataEngine.generatePhotoId (S "abcdefghijklmnopqrstu.jpg") 4 =
      padStart 3 '0' (natToJStr 5) ∧
    MetadataEngine.generatePhotoId (S "abcdefghijklmnopqrstu.jpg") 4 =
      MetadataEngine.generatePhotoId (S "tuvwxyzabcdefghijklmno.png") 4 :=
  ⟨(generatePhotoId_spec (S "IMG 4521.jpg") (S "") 0).1 (by decide),
   (generatePhotoId_spec (S "abcdefghijklmnopqrstu.jpg") (S "") 4).2.1 (by decide),
   (generatePhotoId_spec (S "abcdefghijklmnopqrstu.jpg")
      (S "tuvwxyzabcdefghijklmno.png") 4).2.2 (by decide) (by decide)⟩

namespace ImageProcessor

theorem jsRound_le {q : ℚ} {n : ℕ} (h : q ≤ n) : jsRound q ≤ (n : ℤ) := by
  unfold jsRound
  rw [Int.floor_le_iff]
  push_cast
  linarith

theorem scaled_le {w L m : ℕ} (hwL : w ≤ L) (hL : 0 < L) :
    jsRound ((w : ℚ) * ((m : ℚ) / (L : ℚ))) ≤ (m : ℤ) := by
  apply jsRound_le
  have hLq : (0 : ℚ) < (L : ℚ) := by exact_mod_cast hL
  rw [← mul_div_assoc, div_le_iff hLq]
  have hwq : (w : ℚ) ≤ (L : ℚ) := by exact_mod_cast hwL
  nlinarith [hwq, (show (0 : ℚ) ≤ (m : ℚ) by positivity)]

end ImageProcessor

namespace ImageProcessor

theorem calculateDimensions_bounds (w h maxDim : Nat) :
    max (calculateDimensions w h maxDim).1 (calculateDimensions w h maxDim).2 ≤
        ((max w h : Nat) : ℤ) ∧
      max (calculateDimensions w h maxDim).1 (calculateDimensions w h maxDim).2 ≤
        (maxDim : ℤ) := by
  unfold calculateDimensions
  by_cases hle : max w h ≤ maxDim
  · rw [if_pos hle]
    constructor
    · simp only [max_def]
      split <;> split <;> omega
    · have h1 : (w : ℤ) ≤ (maxDim : ℤ) := by exact_mod_cast le_trans (le_max_left w h) hle
      have h2 : (h : ℤ) ≤ (maxDim : ℤ) := by exact_mod_cast le_trans (le_max_right w h) hle
      exact max_le h1 h2
  · rw [if_neg hle]
    have hL : 0 < max w h := by omega
    have d1 : jsRound ((w : ℚ) * ((maxDim : ℚ) / ((max w h : Nat) : ℚ))) ≤ (maxDim : ℤ) :=
      scaled_le (le_max_left w h) hL
    have d2 : jsRound ((h : ℚ) * ((maxDim : ℚ) / ((max w h : Nat) : ℚ))) ≤ (maxDim : ℤ) :=
      scaled_le (le_max_right w h) hL
    have hmax : (maxDim : ℤ) ≤ ((max w h : Nat) : ℤ) := by
      have : maxDim ≤ max w h := by omega
      exact_mod_cast this
    exact ⟨le_trans (max_le d1 d2) hmax, max_le d1 d2⟩

end ImageProcessor

open SlugUtils ImageProcessor in
/-- C5: for every source image with positive original width and height and
every surface profile, the transcoded dimensions of the Image Transcoder
satisfy `max(width, height) ≤ max(originalWidth, originalHeight)` and
`max(width, height) ≤ surfaceProfile.maxDimension` — no upscaling, even
after the independent rounding of each scaled dimension. -/
theorem transcode_no_upscale (w h : Nat) (pk : PlatformKey)
    (hw : 0 < w) (hh : 0 < h) :
    max (processedDimensions pk w h).1 (processedDimensions pk w h).2 ≤
        ((max w h : Nat) : ℤ) ∧
      max (processedDimensions pk w h).1 (processedDimensions pk w h).2 ≤
        ((platformExportConfigs pk).maxDimension : ℤ) :=
  calculateDimensions_bounds w h (platformExportConfigs pk).maxDimension

/-- C5 witness: a 4000×3000 original exported for the web surface
(maximum dimension 2000) keeps both bounds. -/
theorem transcode_no_upscale_witness :
    max (ImageProcessor.processedDimensions SlugUtils.PlatformKey.web 4000 3000).1
        (ImageProcessor.processedDimensions SlugUtils.PlatformKey.web 4000 3000).2 ≤
      ((max 4000 3000 : Nat) : ℤ) ∧
    max (ImageProcessor.processedDimensions SlugUtils.PlatformKey.web 4000 3000).1
        (ImageProcessor.processedDimensions SlugUtils.PlatformKey.web 4000 3000).2 ≤
      ((ImageProcessor.platformExportConfigs SlugUtils.PlatformKey.web).maxDimension : ℤ) :=
  transcode_no_upscale 4000 3000 SlugUtils.PlatformKey.web (by decide) (by decide)

namespace Export

theorem doubleQuotes_ne_nil (d : Char) (t : JStr) : doubleQuotes (d :: t) ≠ [] := by
  by_cases hd : d = '"' <;> simp [doubleQuotes, hd]

theorem undouble_double : ∀ (l : JStr), undouble (doubleQuotes l) = l
  | [] => rfl
  | c :: r => by
    by_cases hc : c = '"'
    · subst hc
      have hd : doubleQuotes ('"' :: r) = '"' :: '"' :: doubleQuotes r := by
        simp [doubleQuotes]
      rw [hd]
      show (if ('"' : Char) = '"' ∧ ('"' : Char) = '"' then
          '"' :: undouble (doubleQuotes r) else _) = _
      rw [if_pos ⟨rfl, rfl⟩, undouble_double r]
    · have hd : doubleQuotes (c :: r) = c :: doubleQuotes r := by
        simp [doubleQuotes, hc]
      rw [hd]
      cases hr : doubleQuotes r with
      | nil =>
        cases r with
        | nil => rfl
        | cons d t => exact absurd hr (doubleQuotes_ne_nil d t)
      | cons x xs =>
        show (if c = '"' ∧ x = '"' then _ else c :: undouble (x :: xs)) = c :: r
        rw [if_neg (fun hx => hc hx.1), ← hr, undouble_double r]

theorem unescape_escape (f : JStr) : csvUnescapeField (csvEscapeField f) = f := by
  have hshape : csvEscapeField f = ('"' :: doubleQuotes f) ++ ['"'] := by
    simp [csvEscapeField]
  have hlast : (csvEscapeField f).getLast? = some '"' := by
    rw [hshape, List.getLast?_concat]
  have hhead : (csvEscapeField f).head? = some '"' := by
    rw [hshape]; rfl
  unfold csvUnescapeField
  rw [if_pos ⟨hhead, hlast⟩, hshape]
  show undouble ((doubleQuotes f ++ ['"']).dropLast) = f
  rw [List.dropLast_concat, undouble_double]

theorem replCRLF_id : ∀ (l : JStr), '\r' ∉ l → replCRLF l = l
  | [], _ => rfl
  | [_], _ => rfl
  | a :: b :: r, h => by
    have ha : a ≠ '\r' := fun hr => h (hr ▸ List.mem_cons_self a (b :: r))
    show (if a = '\r' ∧ b = '\n' then _ else a :: replCRLF (b :: r)) = _
    rw [if_neg (fun hx => ha hx.1),
      replCRLF_id (b :: r) (fun hm => h (List.mem_cons_of_mem _ hm))]

theorem replNl_id {t : Char} : ∀ (l : JStr), t ∉ l → replNl t l = l
  | [], _ => rfl
  | c :: r, h => by
    have hc : c ≠ t := fun he => h (he ▸ List.mem_cons_self c r)
    show (if c = t then _ else c :: replNl t r) = _
    rw [if_neg hc, replNl_id r (fun hm => h (List.mem_cons_of_mem _ hm))]

theorem sanitize_id {c : JStr} (hn : '\n' ∉ c) (hr : '\r' ∉ c) :
    sanitizeCaption c = c := by
  unfold sanitizeCaption
  rw [replCRLF_id c hr, replNl_id c hn, replNl_id c hr]

end Export

/-- C9 counterexample: the caption `a,"b\nc` — which contains a comma, a
double quote and a newline — does not survive the long-form CSV round trip:
`sanitizeCaption` rewrites the newline to the literal two-character
sequence backslash-`n` before the CSV escaping, and nothing restores it on
parsing. -/
theorem csv_roundtrip_cex :
    (',' ∈ S "a,\"b\nc" ∧ '"' ∈ S "a,\"b\nc" ∧ '\n' ∈ S "a,\"b\nc") ∧
    Export.csvUnescapeField (Export.csvEscapeField
      (Export.sanitizeCaption (S "a,\"b\nc"))) ≠ S "a,\"b\nc" := by
  constructor
  · decide
  · decide

/-- C9 (amended): writing a caption into the long-form CSV and parsing it
back yields `sanitizeCaption` of the caption — the original with every line
break rewritten to the literal two-character sequence backslash-`n` (the
rewriting §4.5 BuildingManifests prescribes); commas and double quotes
survive exactly, and a caption with no line break at all round-trips
byte-identically. -/
theorem csv_roundtrip_amended (c : JStr) :
    Export.csvUnescapeField (Export.csvEscapeField (Export.sanitizeCaption c)) =
      Export.sanitizeCaption c ∧
    ('\n' ∉ c → '\r' ∉ c →
      Export.csvUnescapeField (Export.csvEscapeField (Export.sanitizeCaption c)) = c) :=
  ⟨Export.unescape_escape _,
   fun hn hr => by rw [Export.unescape_escape, Export.sanitize_id hn hr]⟩

/-- C9 witness: the newline-free caption `a,"b` (still containing a comma
and a double quote) round-trips byte-identically. -/
theorem csv_roundtrip_amended_witness :
    Export.csvUnescapeField (Export.csvEscapeField
      (Export.sanitizeCaption (S "a,\"b"))) = S "a,\"b" :=
  (csv_roundtrip_amended (S "a,\"b")).2 (by decide) (by decide)

namespace Export

/-- Success filter of an outcome. -/
def outcomeOk (outcome : FileEntry → TranscodeOutcome) (e : FileEntry) : Bool :=
  match outcome e with
  | .success _ => true
  | _ => false

theorem transcodeGo_spec (outcome : FileEntry → TranscodeOutcome) :
    ∀ (entries : List FileEntry) (zip : List ZipFile) (added : Nat),
      transcodeGo outcome entries zip added =
        ((entries.filterMap fun e =>
            match outcome e with
            | .success b => some (e.platformKey, e.filename, b)
            | _ => none).foldl (fun acc f => zipUpsert acc f.1 f.2.1 f.2.2) zip,
         added + (entries.filter (outcomeOk outcome)).length)
  | [], zip, added => by simp [transcodeGo]
  | e :: rest, zip, added => by
    cases ho : outcome e with
    | success b =>
      have h1 : transcodeGo outcome (e :: rest) zip added =
          transcodeGo outcome rest (zipUpsert zip e.platformKey e.filename b)
            (added + 1) := by
        conv_lhs => rw [transcodeGo]
        rw [ho]
      rw [h1, transcodeGo_spec outcome rest _ _, List.filterMap_cons,
        List.filter_cons]
      simp only [ho, outcomeOk, List.foldl_cons, List.length_cons, if_true]
      rw [Prod.mk.injEq]
      exact ⟨rfl, by omega⟩
    | loadError =>
      have h1 : transcodeGo outcome (e :: rest) zip added =
          transcodeGo outcome rest zip added := by
        conv_lhs => rw [transcodeGo]
        rw [ho]
      rw [h1, transcodeGo_spec outcome rest _ _, List.filterMap_cons,
        List.filter_cons]
      simp [ho, outcomeOk]
    | renderError =>
      have h1 : transcodeGo outcome (e :: rest) zip added =
          transcodeGo outcome rest zip added := by
        conv_lhs => rw [transcodeGo]
        rw [ho]
      rw [h1, transcodeGo_spec outcome rest _ _, List.filterMap_cons,
        List.filter_cons]
      simp [ho, outcomeOk]
    | encodeError =>
      have h1 : transcodeGo outcome (e :: rest) zip added =
          transcodeGo outcome rest zip added := by
        conv_lhs => rw [transcodeGo]
        rw [ho]
      rw [h1, transcodeGo_spec outcome rest _ _, List.filterMap_cons,
        List.filter_cons]
      simp [ho, outcomeOk]

end Export

open Export in
/-- C6: a per-artifact transcoding failure (`LoadError`, `RenderError` or
`EncodeError`) on one (image, surface) pair does not abort the batch loop:
the final zip state is exactly the one obtained by filing the successful
artifacts, in order, under JSZip semantics — every failing artifact is
skipped and contributes nothing to the archive — and the added-file count
is the number of successes, so every remaining pair of the cross-product
is still processed regardless of where failures occur. -/
theorem per_artifact_failures_isolated (entries : List FileEntry)
    (outcome : FileEntry → TranscodeOutcome) :
    (transcodeLoop entries outcome).1 =
      ((entries.filterMap fun e =>
          match outcome e with
          | .success b => some (e.platformKey, e.filename, b)
          | _ => none).foldl (fun acc f => zipUpsert acc f.1 f.2.1 f.2.2) []) ∧
    (transcodeLoop entries outcome).2 =
      (entries.filter (outcomeOk outcome)).length := by
  unfold transcodeLoop
  rw [transcodeGo_spec]
  exact ⟨rfl, Nat.zero_add _⟩

namespace Export

theorem runSelfTest_eq_none_iff (e a r : Nat) :
    runSelfTest e a r = none ↔ e = a ∧ e = r := by
  unfold runSelfTest
  by_cases h1 : e = a
  · by_cases h2 : e = r
    · simp [h1, h2]
    · simp [h1, h2]
  · simp [h1]

end Export

namespace Export

theorem handleExportPack_past_validation (imgs : List ImageCtx.UploadedImage)
    (plats : List SlugUtils.PlatformKey) (mm : MetadataMap) (cat : JStr)
    (outcome : FileEntry → TranscodeOutcome)
    (hmiss : checkMissingMetadata imgs plats mm = [])
    {rows : List CSVRow} {entries : List FileEntry}
    (hbuild : buildExportData imgs plats mm cat = some (rows, entries)) :
    handleExportPack imgs plats mm cat outcome =
      match runSelfTest (imgs.length * plats.length)
          (transcodeLoop entries outcome).2 rows.length with
      | some err =>
        (ExportResult.abortedSelfTest (S "Self-test failed: ZIP/CSV mismatch") [err],
         [Phase.validating, Phase.building, Phase.transcoding, Phase.selfTesting])
      | none =>
        (ExportResult.finalized
          ⟨(transcodeLoop entries outcome).1, rows, generateCSV rows,
           generateMasterCSV imgs mm cat,
           ⟨imgs.length, plats.length, imgs.length * plats.length,
            (transcodeLoop entries outcome).2, rows.length⟩⟩,
         [Phase.validating, Phase.building, Phase.transcoding, Phase.selfTesting,
          Phase.packaging]) := by
  unfold handleExportPack
  rw [if_neg (by simp [hmiss]), hbuild]

end Export

namespace Export

/-- What the self-test does guarantee at `Finalized`: the add-operation
counter (`addedFileCount`, recorded as `actualZipFiles`) and the long-form
row count both equal the expected count. It does not count the files in
the archive, so `zipUpsert` replacements go unnoticed. -/
theorem finalized_counters_agree (imgs : List ImageCtx.UploadedImage)
    (plats : List SlugUtils.PlatformKey) (mm : MetadataMap) (cat : JStr)
    (outcome : FileEntry → TranscodeOutcome) :
    ∀ a phases, handleExportPack imgs plats mm cat outcome =
        (ExportResult.finalized a, phases) →
      a.manifest.actualZipFiles = imgs.length * plats.length ∧
      a.csvRows.length = imgs.length * plats.length := by
  intro a phases heq
  by_cases hmiss : checkMissingMetadata imgs plats mm = []
  · cases hbuild : buildExportData imgs plats mm cat with
    | none =>
      rw [show handleExportPack imgs plats mm cat outcome =
          (ExportResult.abortedReadFailure, [Phase.validating, Phase.building]) by
        unfold handleExportPack
        rw [if_neg (by simp [hmiss]), hbuild]] at heq
      exact absurd (congrArg Prod.fst heq) (fun h => ExportResult.noConfusion h)
    | some re =>
      obtain ⟨rows, entries⟩ := re
      rw [handleExportPack_past_validation imgs plats mm cat outcome hmiss hbuild] at heq
      cases hst : runSelfTest (imgs.length * plats.length)
          (transcodeLoop entries outcome).2 rows.length with
      | some err =>
        rw [hst] at heq
        exact absurd (congrArg Prod.fst heq) (fun h => ExportResult.noConfusion h)
      | none =>
        rw [hst] at heq
        obtain ⟨hea, her⟩ := (runSelfTest_eq_none_iff _ _ _).mp hst
        have ha := congrArg Prod.fst heq
        simp only [ExportResult.finalized.injEq] at ha
        subst ha
        constructor
        · show (transcodeLoop entries outcome).2 = imgs.length * plats.length
          omega
        · show rows.length = imgs.length * plats.length
          omega
  · rw [show handleExportPack imgs plats mm cat outcome =
        (ExportResult.abortedMissingMeta
          (S "Missing metadata. Please run Optimize first.")
          (detailsOf (checkMissingMetadata imgs plats mm)), [Phase.validating]) by
      unfold handleExportPack
      rw [if_pos (by simp [hmiss])]] at heq
    exact absurd (congrArg Prod.fst heq) (fun h => ExportResult.noConfusion h)

end Export

namespace Export

open SlugUtils ImageCtx MetadataEngine

/-- Two distinct uploads of the same original filename `a.jpg`. Because
`generatePhotoId` ignores the batch index for base names of at most 20
characters, both derive the same photo id, and with it the same slug base
and the same generated filenames. -/
def dupImageA : UploadedImage := mkUploadedImage 1 (S "a.jpg") 0 0

def dupImageB : UploadedImage := mkUploadedImage 2 (S "a.jpg") 0 1

/-- The web metadata generated for either image (identical for both: the
generator reads only fields that coincide). -/
def dupMeta : ImageMetadata := generateMetadataForImage dupImageA .web (S "SoHo, NYC")

/-- A metadata table persisting that entry for both image ids. -/
def dupMM : MetadataMap := fun i pk =>
  if (i = 1 ∨ i = 2) ∧ pk = .web then some dupMeta else none

/-- An all-success transcoding oracle; the blob is the image id, so the
archive shows which upload survived the name collision. -/
def dupOutcome : FileEntry → TranscodeOutcome := fun e => .success e.image.id

/-- The archive of the duplicate-name run. -/
def dupArchive : Archive :=
  match (handleExportPack [dupImageA, dupImageB] [.web] dupMM
      (S "main_room_wide") dupOutcome).1 with
  | .finalized a => a
  | _ => ⟨[], [], [], [], ⟨0, 0, 0, 0, 0⟩⟩

end Export

open Export SlugUtils in
/-- C1 (code bug): a run over two uploads of the same original filename
passes validation and the self-test and reaches `Finalized` — every phase
up to and including packaging runs — yet the archive's single surface
folder holds one file while the long-form manifest has two rows and the
declared expected count is two. The three counts are not equal at
`Finalized` and the mismatch does not abort, because both uploads generate
the identical filename (`generatePhotoId` ignores the batch index for
short base names), JSZip silently replaces the same-named entry, and the
self-test compares the add-operation counter (`addedFileCount`, exposed as
`actualZipFiles`) rather than the number of files in the archive. -/
theorem duplicate_name_finalizes_partial_archive :
    (handleExportPack [dupImageA, dupImageB] [PlatformKey.web] dupMM
        (S "main_room_wide") dupOutcome).1 = ExportResult.finalized dupArchive ∧
    (handleExportPack [dupImageA, dupImageB] [PlatformKey.web] dupMM
        (S "main_room_wide") dupOutcome).2 =
      [Phase.validating, Phase.building, Phase.transcoding, Phase.selfTesting,
       Phase.packaging] ∧
    dupArchive.files.length = 1 ∧
    dupArchive.csvRows.length = 2 ∧
    [dupImageA, dupImageB].length * [PlatformKey.web].length = 2 ∧
    dupArchive.manifest.actualZipFiles = 2 ∧
    dupArchive.files.length ≠ dupArchive.csvRows.length :=
  ⟨rfl, rfl, by decide, by decide, by decide, by decide, by decide⟩

namespace Export

open SlugUtils ImageCtx MetadataEngine

/-- Eleven images with no persisted metadata at all. -/
def cexImgs : List UploadedImage :=
  (List.range 11).map fun i => ⟨i, S "a", S "", .mainRoomWide, S "", S "", []⟩

/-- An empty metadata table. -/
def emptyMM : MetadataMap := fun _ _ => none

/-- A single image with no persisted metadata. -/
def cexImg1 : UploadedImage := ⟨5, S "b.jpg", S "", .mainRoomWide, S "", S "", []⟩

end Export

open Export SlugUtils in
/-- C2 counterexample: with eleven missing (image, surface) pairs the
orchestrator does abort during validation, but the surfaced detail list is
not the full list of missing pairs: its eleventh line is the summary
`... and 1 more` rather than the eleventh pair. -/
theorem missing_meta_truncation_cex :
    (checkMissingMetadata cexImgs [PlatformKey.web] emptyMM).length = 11 ∧
    (handleExportPack cexImgs [PlatformKey.web] emptyMM (S "x")
        (fun _ => TranscodeOutcome.loadError)).1 =
      ExportResult.abortedMissingMeta
        (S "Missing metadata. Please run Optimize first.")
        (detailsOf (checkMissingMetadata cexImgs [PlatformKey.web] emptyMM)) ∧
    detailsOf (checkMissingMetadata cexImgs [PlatformKey.web] emptyMM) ≠
      (checkMissingMetadata cexImgs [PlatformKey.web] emptyMM).map
        (fun m => m.imageName ++ S " → " ++ m.platformKey.str) :=
  ⟨by decide, rfl, by decide⟩

open Export SlugUtils ImageCtx in
/-- C2 (amended): if at least one (image, surface) pair of the selected
cross-product lacks a persisted metadata entry with non-empty slug and
filename, the orchestrator aborts during pre-flight validation — only the
validation phase runs, so manifest building, transcoding and packaging are
never reached and no archive is finalized — and it surfaces the missing
pairs truncated to the first ten (the full list exactly when at most ten
pairs are missing, a `... and N more` summary line otherwise). -/
theorem missing_meta_abort_amended (imgs : List UploadedImage)
    (plats : List PlatformKey) (mm : MetadataMap) (cat : JStr)
    (outcome : FileEntry → TranscodeOutcome) (img : UploadedImage)
    (pk : PlatformKey) (hi : img ∈ imgs) (hp : pk ∈ plats)
    (hmiss : mm img.id pk = none ∨
      ∃ m, mm img.id pk = some m ∧ (m.slugBase = [] ∨ m.newFilename = [])) :
    handleExportPack imgs plats mm cat outcome =
      (ExportResult.abortedMissingMeta
        (S "Missing metadata. Please run Optimize first.")
        (detailsOf (checkMissingMetadata imgs plats mm)), [Phase.validating]) ∧
    (∀ a phases, handleExportPack imgs plats mm cat outcome ≠
      (ExportResult.finalized a, phases)) ∧
    ((checkMissingMetadata imgs plats mm).length ≤ 10 →
      detailsOf (checkMissingMetadata imgs plats mm) =
        (checkMissingMetadata imgs plats mm).map
          (fun m => m.imageName ++ S " → " ++ m.platformKey.str)) := by
  have hmem : (⟨img.id, img.name, pk⟩ : MissingPair) ∈
      checkMissingMetadata imgs plats mm := by
    unfold checkMissingMetadata
    rw [List.mem_bind]
    refine ⟨img, hi, ?_⟩
    rw [List.mem_filterMap]
    refine ⟨pk, hp, ?_⟩
    rcases hmiss with h | ⟨m, hm, hor⟩
    · rw [h]
    · rw [hm]
      show (if m.slugBase = [] ∨ m.newFilename = [] then _ else none) = _
      rw [if_pos hor]
  have hne : checkMissingMetadata imgs plats mm ≠ [] := List.ne_nil_of_mem hmem
  have h1 : handleExportPack imgs plats mm cat outcome =
      (ExportResult.abortedMissingMeta
        (S "Missing metadata. Please run Optimize first.")
        (detailsOf (checkMissingMetadata imgs plats mm)), [Phase.validating]) := by
    unfold handleExportPack
    rw [if_pos hne]
  refine ⟨h1, ?_, ?_⟩
  · intro a phases h
    rw [h1] at h
    exact ExportResult.noConfusion (congrArg Prod.fst h)
  · intro hlen
    unfold detailsOf
    rw [if_neg (by omega), List.take_of_length_le hlen]

open Export SlugUtils in
/-- C2 witness: one image with no metadata — the run aborts in validation
and the surfaced detail list is exactly the one missing pair. -/
theorem missing_meta_abort_amended_witness :
    handleExportPack [cexImg1] [PlatformKey.web] emptyMM (S "x")
        (fun _ => TranscodeOutcome.loadError) =
      (ExportResult.abortedMissingMeta
        (S "Missing metadata. Please run Optimize first.")
        (detailsOf (checkMissingMetadata [cexImg1] [PlatformKey.web] emptyMM)),
       [Phase.validating]) ∧
    detailsOf (checkMissingMetadata [cexImg1] [PlatformKey.web] emptyMM) =
      (checkMissingMetadata [cexImg1] [PlatformKey.web] emptyMM).map
        (fun m => m.imageName ++ S " → " ++ m.platformKey.str) := by
  have h := missing_meta_abort_amended [cexImg1] [PlatformKey.web] emptyMM (S "x")
    (fun _ => TranscodeOutcome.loadError) cexImg1 PlatformKey.web
    (by simp) (by simp) (Or.inl rfl)
  exact ⟨h.1, h.2.2 (by decide)⟩
